import Mathlib

/-!
Verification of the ARM Cortex-M reset/bootstrap sequence
(`src/generic/armcm_boot.c` of the klipper firmware).

Memory is modelled as a byte-addressed map `Nat → Nat` (well-formed memories
hold values below 256).  The word-granular copy/fill primitives
`boot_memset` / `boot_memcpy` decrement their `size_t` counter by 4 with
wrap-around modulo 2^32, exactly as the C loops do; the loops are given a
fuel parameter so that non-termination (counter never reaching zero) is
expressible as `none` for every fuel.

The reset handler's register manipulation is modelled both as a state
transformer on a machine record (memory, stack pointer, peripheral
registers) and as a trace of hardware events, so that ordering properties
(barrier between clear-enable and clear-pending writes) and conditional
writes (watchdog feed) can be stated over the trace.
-/

namespace ArmcmBoot

/-- `size_t` modulus: the boot code runs on a 32-bit Cortex-M. -/
def SZ : Nat := 2 ^ 32

/-- Byte-addressed memory. -/
def Mem : Type := Nat → Nat

/-- A well-formed memory holds byte values. -/
def WfMem (m : Mem) : Prop := ∀ a, m a < 256

/-- Byte `i` (little-endian) of the word `w`. -/
def byteOf (w i : Nat) : Nat := w / 256 ^ i % 256

/-- Store the 32-bit word `w` at byte address `a` (little-endian),
modelling a `uint32_t` store `*p = w`. -/
def storeWord (m : Mem) (a w : Nat) : Mem :=
  fun x => if a ≤ x ∧ x < a + 4 then byteOf w (x - a) else m x

/-- Load the 32-bit word at byte address `a` (little-endian),
modelling a `uint32_t` load `*p`. -/
def loadWord (m : Mem) (a : Nat) : Nat :=
  m a + 256 * (m (a + 1) + 256 * (m (a + 2) + 256 * m (a + 3)))

/-- One `size_t` decrement by 4 with 32-bit wrap-around: `n -= 4`. -/
def decr4 (n : Nat) : Nat := (n + (SZ - 4)) % SZ

/-- The loop of `boot_memset`:
`while (n) { *p++ = c; n -= sizeof(*p); }` with `p` a `volatile uint32_t *`.
`fuel` bounds the number of iterations; `none` means the bound was reached
before the loop exited. -/
def boot_memset_loop (c : Nat) : Nat → Mem → Nat → Nat → Option Mem
  | 0, m, _, n => if n = 0 then some m else none
  | fuel + 1, m, p, n =>
    if n = 0 then some m
    else boot_memset_loop c fuel (storeWord m p c) (p + 4) (decr4 n)

/-- The loop of `boot_memcpy`:
`while (n) { *d++ = *s++; n -= sizeof(*d); }` with `d` a
`volatile uint32_t *` and `s` a `const uint32_t *`. -/
def boot_memcpy_loop : Nat → Mem → Nat → Nat → Nat → Option Mem
  | 0, m, _, _, n => if n = 0 then some m else none
  | fuel + 1, m, d, s, n =>
    if n = 0 then some m
    else boot_memcpy_loop fuel (storeWord m d (loadWord m s)) (d + 4) (s + 4) (decr4 n)

/-- `boot_memset(s, c, n)`: runs the loop with enough fuel for the
terminating case (`n` a multiple of 4 needs exactly `n / 4` iterations). -/
def boot_memset (m : Mem) (s c n : Nat) : Option Mem :=
  boot_memset_loop c (n / 4) m s n

/-- `boot_memcpy(dest, src, n)`: runs the loop with enough fuel for the
terminating case. -/
def boot_memcpy (m : Mem) (dest src n : Nat) : Option Mem :=
  boot_memcpy_loop (n / 4) m dest src n

/-- Standard byte-wise `memset` semantics (what `memset(s, c, n)` from the
C library would produce): every byte of `[s, s+n)` becomes `(unsigned char)c`. -/
def memset_bytes (m : Mem) (s c n : Nat) : Mem :=
  fun a => if s ≤ a ∧ a < s + n then c % 256 else m a

/-- Standard byte-wise `memcpy` semantics for non-overlapping ranges,
modelling `__builtin_memcpy(d, s, n)`. -/
def memcpy_bytes (m : Mem) (d s n : Nat) : Mem :=
  fun a => if d ≤ a ∧ a < d + n then m (s + (a - d)) else m a

/-! ## Linker-provided layout

The symbols `_data_start`, `_data_end`, `_data_flash`, `_bss_start`,
`_bss_end`, `_stack_start`, `_stack_end` and (with
`CONFIG_ARMCM_RAM_VECTORTABLE`) `_text_vectortable_start`,
`_text_vectortable_end`, `_ram_vectortable_start` are addresses fixed by
the linker script `armcm_link.lds.S`. -/

structure Layout where
  data_start : Nat
  data_end : Nat
  data_flash : Nat
  bss_start : Nat
  bss_end : Nat
  stack_start : Nat
  stack_end : Nat
  text_vectortable_start : Nat
  text_vectortable_end : Nat
  ram_vectortable_start : Nat

/-- The invariants the linker script guarantees: all region boundaries are
word-aligned, regions are well ordered and of 32-bit size, the flash source
of the initialized-data region is disjoint from its RAM destination, and the
flash vector table is disjoint from its RAM copy. -/
def ValidLayout (L : Layout) : Prop :=
  4 ∣ L.data_start ∧ 4 ∣ L.data_end ∧ 4 ∣ L.data_flash ∧
  4 ∣ L.bss_start ∧ 4 ∣ L.bss_end ∧
  4 ∣ L.stack_start ∧ 4 ∣ L.stack_end ∧
  4 ∣ L.text_vectortable_start ∧ 4 ∣ L.text_vectortable_end ∧
  4 ∣ L.ram_vectortable_start ∧
  L.data_start ≤ L.data_end ∧ L.bss_start ≤ L.bss_end ∧
  L.bss_end ≤ L.stack_start ∧
  L.text_vectortable_start ≤ L.text_vectortable_end ∧
  L.data_end - L.data_start < SZ ∧ L.bss_end - L.bss_start < SZ ∧
  (L.data_flash + (L.data_end - L.data_start) ≤ L.data_start ∨
    L.data_start + (L.data_end - L.data_start) ≤ L.data_flash) ∧
  (L.text_vectortable_start + (L.text_vectortable_end - L.text_vectortable_start)
      ≤ L.ram_vectortable_start ∨
    L.ram_vectortable_start + (L.text_vectortable_end - L.text_vectortable_start)
      ≤ L.text_vectortable_start)

/-- `(&_data_end - &_data_start) * 4`: the `uint32_t*` pointer difference is
the byte distance divided by 4 (the linker guarantees divisibility). -/
def data_count (L : Layout) : Nat := (L.data_end - L.data_start) / 4 * 4

/-- `(&_bss_end - &_bss_start) * 4`. -/
def bss_count (L : Layout) : Nat := (L.bss_end - L.bss_start) / 4 * 4

/-- `(&_text_vectortable_end - &_text_vectortable_start) * 4`. -/
def vt_count (L : Layout) : Nat :=
  (L.text_vectortable_end - L.text_vectortable_start) / 4 * 4

/-- Stage-Two step 7:
`boot_memcpy(&_data_start, &_data_flash, (&_data_end - &_data_start) * 4)`. -/
def stage_two_copy_data (L : Layout) (m : Mem) : Option Mem :=
  boot_memcpy m L.data_start L.data_flash (data_count L)

/-- Stage-Two step 8:
`boot_memset(&_bss_start, 0, (&_bss_end - &_bss_start) * 4)`. -/
def stage_two_clear_bss (L : Layout) (m : Mem) : Option Mem :=
  boot_memset m L.bss_start 0 (bss_count L)

/-! ## Stage-Two register phase as an event trace

`reset_handler_stage_two` first clears/reprograms interrupt-controller and
system registers.  The order of volatile writes and barriers is modelled as
a trace of events. -/

inductive S2Event where
  | icer (i v : Nat)
  | icpr (i v : Nat)
  | ip (i v : Nat)
  | systick_ctrl (v : Nat)
  | icsr (v : Nat)
  | shp (i v : Nat)
  | dsb
  | isb
  | enable_irq
  deriving DecidableEq, Repr

/-- `SysTick_CTRL_CLKSOURCE_Msk`: bit 2. -/
def SysTick_CTRL_CLKSOURCE_Msk : Nat := 4

/-- `SysTick_CTRL_TICKINT_Msk`: bit 1. -/
def SysTick_CTRL_TICKINT_Msk : Nat := 2

/-- `SysTick_CTRL_ENABLE_Msk`: bit 0. -/
def SysTick_CTRL_ENABLE_Msk : Nat := 1

/-- `SCB_ICSR_PENDSVCLR_Msk` (bit 27) together with
`SCB_ICSR_PENDSTCLR_Msk` (bit 25). -/
def SCB_ICSR_CLR : Nat := 2 ^ 27 + 2 ^ 25

/-- The NVIC clearing loop of `reset_handler_stage_two`:
`for (i = 0; i < n; i++) { NVIC->ICER[i] = 0xFFFFFFFF; __DSB(); NVIC->ICPR[i] = 0xFFFFFFFF; }`. -/
def nvic_clear_trace : Nat → List S2Event
  | 0 => []
  | n + 1 =>
    nvic_clear_trace n ++ [.icer n 0xFFFFFFFF, .dsb, .icpr n 0xFFFFFFFF]

/-- The full register-write trace of `reset_handler_stage_two` before the
data/bss initialization: NVIC clear loop, priority reset loop, SysTick
disable, pending-clear, system-priority reset loop, barriers, enable. -/
def reset_handler_stage_two_trace (nIcer nIp nShp : Nat) : List S2Event :=
  nvic_clear_trace nIcer ++
  (List.range nIp).map (fun i => .ip i 0) ++
  [.systick_ctrl SysTick_CTRL_CLKSOURCE_Msk, .dsb, .icsr SCB_ICSR_CLR] ++
  (List.range nShp).map (fun i => .shp i 0) ++
  [.dsb, .isb, .enable_irq]

/-! ## Stage-One (`ResetHandler`) -/

inductive S1Event where
  | disable_irq
  | systick_write (v : Nat)
  | iwdg_write (v : Nat)
  | cpsid_i
  | cpsid_f
  | bdcr_write (v : Nat)
  | set_sp (v : Nat)
  | vt_copy (d s n : Nat)
  | cfgr1_write (v : Nat)
  | cpsie_i
  | cpsie_f
  deriving DecidableEq, Repr

/-- How control leaves `ResetHandler`: `bx` is a one-way branch, a `bl`-style
call would push a return path.  The source uses `bx`. -/
inductive XferKind where
  | branch
  | call
  deriving DecidableEq, Repr

/-- The control transfer out of Stage-One, together with the value of the
active stack pointer at the moment of transfer. -/
structure Transfer where
  kind : XferKind
  sp : Nat
  deriving DecidableEq, Repr

/-- Machine state visible to Stage-One: memory, the active stack pointer and
the peripheral registers it touches. -/
structure Machine where
  mem : Mem
  sp : Nat
  systick_ctrl : Nat
  iwdg_kr : Nat
  rcc_bdcr : Nat
  syscfg_cfgr1 : Nat

/-- `RCC_BDCR_BDRST`: bit 16. -/
def RCC_BDCR_BDRST : Nat := 2 ^ 16

/-- `SYSCFG_CFGR1_MEM_MODE_0`: bit 0. -/
def SYSCFG_CFGR1_MEM_MODE_0 : Nat := 1

/-- `SYSCFG_CFGR1_MEM_MODE_1`: bit 1. -/
def SYSCFG_CFGR1_MEM_MODE_1 : Nat := 2

/-- The IWDG refresh key `0x0000AAAA`. -/
def IWDG_REFRESH_KEY : Nat := 0xAAAA

/-- `x &= ~mask` on a 32-bit register. -/
def clearBits (x mask : Nat) : Nat := x &&& (0xFFFFFFFF ^^^ mask)

/-- The `#if CONFIG_ARMCM_RAM_VECTORTABLE` block of `ResetHandler`:
disable SysTick, feed the watchdog when active, mask interrupts, pulse the
backup-domain reset, set the stack pointer, copy the vector table to RAM,
remap address 0 to SRAM, re-enable interrupts. -/
def ResetHandler_ramvt (L : Layout) (st0 : Machine) : Machine × List S1Event :=
  -- SysTick->CTRL &= ~(SysTick_CTRL_TICKINT_Msk | SysTick_CTRL_ENABLE_Msk);
  let v := clearBits st0.systick_ctrl
    (SysTick_CTRL_TICKINT_Msk ||| SysTick_CTRL_ENABLE_Msk)
  let st1 := { st0 with systick_ctrl := v }
  -- if(IWDG->KR) IWDG->KR = 0x0000AAAAU;
  let st2 := if st1.iwdg_kr ≠ 0 then { st1 with iwdg_kr := IWDG_REFRESH_KEY } else st1
  let iwdg_evs : List S1Event :=
    if st1.iwdg_kr ≠ 0 then [.iwdg_write IWDG_REFRESH_KEY] else []
  -- asm volatile("cpsid i"); asm volatile("cpsid f");
  -- RCC->BDCR |= RCC_BDCR_BDRST;
  let v1 := st2.rcc_bdcr ||| RCC_BDCR_BDRST
  -- RCC->BDCR &= ~RCC_BDCR_BDRST;
  let v2 := clearBits v1 RCC_BDCR_BDRST
  let st3 := { st2 with rcc_bdcr := v2 }
  -- asm volatile("ldr r0, =_stack_end \n mov sp, r0");
  let st4 := { st3 with sp := L.stack_end }
  -- __builtin_memcpy(&_ram_vectortable_start, &_text_vectortable_start, count_vt);
  let st5 := { st4 with
    mem := memcpy_bytes st4.mem L.ram_vectortable_start
      L.text_vectortable_start (vt_count L) }
  -- SYSCFG->CFGR1 &= ~(SYSCFG_CFGR1_MEM_MODE_0 | SYSCFG_CFGR1_MEM_MODE_1);
  let w1 := clearBits st5.syscfg_cfgr1
    (SYSCFG_CFGR1_MEM_MODE_0 ||| SYSCFG_CFGR1_MEM_MODE_1)
  -- SYSCFG->CFGR1 |= (SYSCFG_CFGR1_MEM_MODE_0 | SYSCFG_CFGR1_MEM_MODE_1);
  let w2 := w1 ||| (SYSCFG_CFGR1_MEM_MODE_0 ||| SYSCFG_CFGR1_MEM_MODE_1)
  let st6 := { st5 with syscfg_cfgr1 := w2 }
  -- asm volatile("cpsie i"); asm volatile("cpsie f");
  (st6,
    [.systick_write v] ++ iwdg_evs ++ [.cpsid_i, .cpsid_f] ++
    [.bdcr_write v1, .bdcr_write v2] ++ [.set_sp L.stack_end] ++
    [.vt_copy L.ram_vectortable_start L.text_vectortable_start (vt_count L)] ++
    [.cfgr1_write w1, .cfgr1_write w2] ++ [.cpsie_i, .cpsie_f])

/-- `ResetHandler`, the initial code entry point, parameterized by
`CONFIG_ARMCM_RAM_VECTORTABLE` (`ramVT`).  Returns the machine state and the
event trace at the moment control is transferred to
`reset_handler_stage_two`, and the transfer itself. -/
def ResetHandler (ramVT : Bool) (L : Layout) (st : Machine) :
    Machine × List S1Event × Transfer :=
  -- __disable_irq();
  let p := if ramVT then ResetHandler_ramvt L st else (st, [])
  -- asm volatile("mov sp, %0 \n bx %1" : : "r"(&_stack_end), "r"(reset_handler_stage_two));
  ({ p.1 with sp := L.stack_end },
    [S1Event.disable_irq] ++ p.2 ++ [S1Event.set_sp L.stack_end],
    { kind := .branch, sp := L.stack_end })

/-! ## Dynamic memory range -/

/-- `dynmem_start(void) { return &_bss_end; }` -/
def dynmem_start (L : Layout) : Nat := L.bss_end

/-- `dynmem_end(void) { return &_stack_start; }` -/
def dynmem_end (L : Layout) : Nat := L.stack_start

/-- `dynmem_start` as a state function: it returns an address and leaves
memory untouched. -/
def dynmem_start_run (L : Layout) (m : Mem) : Nat × Mem := (dynmem_start L, m)

/-- `dynmem_end` as a state function: it returns an address and leaves
memory untouched. -/
def dynmem_end_run (L : Layout) (m : Mem) : Nat × Mem := (dynmem_end L, m)

/-! ## Concrete sample inputs -/

/-- A concrete well-formed memory. -/
def m0 : Mem := fun a => a % 256

/-- A concrete valid linker layout. -/
def L0 : Layout :=
  { data_start := 8, data_end := 16, data_flash := 64,
    bss_start := 16, bss_end := 24, stack_start := 24, stack_end := 96,
    text_vectortable_start := 0, text_vectortable_end := 8,
    ram_vectortable_start := 32 }

/-- A concrete machine state with the watchdog active (`IWDG->KR ≠ 0`). -/
def mc0 : Machine :=
  { mem := m0, sp := 5, systick_ctrl := 7, iwdg_kr := 3,
    rcc_bdcr := 0, syscfg_cfgr1 := 0 }

/-- A concrete machine state with the watchdog inactive (`IWDG->KR = 0`). -/
def mc1 : Machine :=
  { mem := m0, sp := 5, systick_ctrl := 7, iwdg_kr := 0,
    rcc_bdcr := 0, syscfg_cfgr1 := 0 }

/-! ## Helper lemmas: bytes, words, the `size_t` decrement -/

lemma SZ_eq : SZ = 4294967296 := by norm_num [SZ]

lemma byteOf_lt (w i : Nat) : byteOf w i < 256 :=
  Nat.mod_lt _ (by norm_num)

lemma byteOf_zero_word (i : Nat) : byteOf 0 i = 0 := by
  simp [byteOf]

lemma storeWord_in (m : Mem) (a w x : Nat) (h1 : a ≤ x) (h2 : x < a + 4) :
    storeWord m a w x = byteOf w (x - a) := by
  unfold storeWord
  rw [if_pos ⟨h1, h2⟩]

lemma storeWord_out (m : Mem) (a w x : Nat) (h : ¬(a ≤ x ∧ x < a + 4)) :
    storeWord m a w x = m x := by
  unfold storeWord
  rw [if_neg h]

lemma storeWord_wf (m : Mem) (a w : Nat) (hm : WfMem m) :
    WfMem (storeWord m a w) := by
  intro x
  unfold storeWord
  by_cases h : a ≤ x ∧ x < a + 4
  · rw [if_pos h]; exact byteOf_lt _ _
  · rw [if_neg h]; exact hm x

lemma byteOf_loadWord (m : Mem) (hm : WfMem m) (a : Nat) :
    ∀ j, j < 4 → byteOf (loadWord m a) j = m (a + j) := by
  have h0 := hm a
  have h1 := hm (a + 1)
  have h2 := hm (a + 2)
  have h3 := hm (a + 3)
  intro j hj
  unfold loadWord byteOf
  interval_cases j <;> simp <;> omega

lemma decr4_eq (n : Nat) (h4 : 4 ≤ n) (hn : n < SZ) : decr4 n = n - 4 := by
  unfold decr4
  rw [SZ_eq] at *
  omega

lemma decr4_mod4 (n : Nat) : decr4 n % 4 = n % 4 := by
  unfold decr4
  rw [Nat.mod_mod_of_dvd _ (by rw [SZ_eq]; norm_num)]
  rw [SZ_eq]
  omega

/-! ## The `boot_memset` loop -/

lemma boot_memset_loop_spec (c f : Nat) :
    ∀ m p n, 4 ∣ n → n < SZ → n / 4 ≤ f →
    ∃ m', boot_memset_loop c f m p n = some m' ∧
      (∀ a, p ≤ a → a < p + n → m' a = byteOf c ((a - p) % 4)) ∧
      (∀ a, ¬(p ≤ a ∧ a < p + n) → m' a = m a) := by
  induction f with
  | zero =>
    intro m p n h4 hn hf
    have hn0 : n = 0 := by omega
    subst hn0
    refine ⟨m, by simp [boot_memset_loop], ?_, fun a _ => rfl⟩
    intro a ha1 ha2
    omega
  | succ f ih =>
    intro m p n h4 hn hf
    by_cases h0 : n = 0
    · subst h0
      refine ⟨m, by simp [boot_memset_loop], ?_, fun a _ => rfl⟩
      intro a ha1 ha2
      omega
    · have h4n : 4 ≤ n := by omega
      have hd : decr4 n = n - 4 := decr4_eq n h4n hn
      obtain ⟨m', hsome, hfill, hframe⟩ :=
        ih (storeWord m p c) (p + 4) (n - 4) (by omega) (by omega) (by omega)
      refine ⟨m', ?_, ?_, ?_⟩
      · rw [boot_memset_loop, if_neg h0, hd]
        exact hsome
      · intro a ha1 ha2
        by_cases hlt : a < p + 4
        · rw [hframe a (by omega), storeWord_in m p c a ha1 hlt]
          have he : (a - p) % 4 = a - p := by omega
          rw [he]
        · rw [hfill a (by omega) (by omega)]
          have he : a - (p + 4) = a - p - 4 := by omega
          have he2 : (a - p - 4) % 4 = (a - p) % 4 := by omega
          rw [he, he2]
      · intro a ha
        rw [hframe a (by omega), storeWord_out m p c a (by omega)]

lemma boot_memset_loop_short (c f : Nat) :
    ∀ m p n, 4 ∣ n → n < SZ → f < n / 4 →
    boot_memset_loop c f m p n = none := by
  induction f with
  | zero =>
    intro m p n h4 hn hf
    have h0 : n ≠ 0 := by omega
    simp [boot_memset_loop, h0]
  | succ f ih =>
    intro m p n h4 hn hf
    have h0 : n ≠ 0 := by omega
    have h4n : 4 ≤ n := by omega
    rw [boot_memset_loop, if_neg h0, decr4_eq n h4n hn]
    exact ih _ _ _ (by omega) (by omega) (by omega)

lemma boot_memset_loop_not_dvd (c f : Nat) :
    ∀ m p n, ¬ 4 ∣ n → boot_memset_loop c f m p n = none := by
  induction f with
  | zero =>
    intro m p n h4
    have h0 : n ≠ 0 := by omega
    simp [boot_memset_loop, h0]
  | succ f ih =>
    intro m p n h4
    have h0 : n ≠ 0 := by omega
    rw [boot_memset_loop, if_neg h0]
    refine ih _ _ _ ?_
    have := decr4_mod4 n
    omega

/-! ## The `boot_memcpy` loop -/

lemma boot_memcpy_loop_frame (f : Nat) :
    ∀ m d s n, 4 ∣ n → n < SZ → n / 4 ≤ f →
    ∃ m', boot_memcpy_loop f m d s n = some m' ∧
      (∀ a, ¬(d ≤ a ∧ a < d + n) → m' a = m a) := by
  induction f with
  | zero =>
    intro m d s n h4 hn hf
    have hn0 : n = 0 := by omega
    subst hn0
    exact ⟨m, by simp [boot_memcpy_loop], fun a _ => rfl⟩
  | succ f ih =>
    intro m d s n h4 hn hf
    by_cases h0 : n = 0
    · subst h0
      exact ⟨m, by simp [boot_memcpy_loop], fun a _ => rfl⟩
    · have h4n : 4 ≤ n := by omega
      obtain ⟨m', hsome, hframe⟩ :=
        ih (storeWord m d (loadWord m s)) (d + 4) (s + 4) (n - 4)
          (by omega) (by omega) (by omega)
      refine ⟨m', ?_, ?_⟩
      · rw [boot_memcpy_loop, if_neg h0, decr4_eq n h4n hn]
        exact hsome
      · intro a ha
        rw [hframe a (by omega), storeWord_out _ _ _ a (by omega)]

lemma boot_memcpy_loop_spec (f : Nat) :
    ∀ m d s n, WfMem m → 4 ∣ n → n < SZ → n / 4 ≤ f →
    (s + n ≤ d ∨ d + n ≤ s) →
    ∃ m', boot_memcpy_loop f m d s n = some m' ∧
      (∀ k, k < n → m' (d + k) = m (s + k)) ∧
      (∀ a, ¬(d ≤ a ∧ a < d + n) → m' a = m a) := by
  induction f with
  | zero =>
    intro m d s n _ h4 hn hf _
    have hn0 : n = 0 := by omega
    subst hn0
    refine ⟨m, by simp [boot_memcpy_loop], ?_, fun a _ => rfl⟩
    intro k hk
    omega
  | succ f ih =>
    intro m d s n hm h4 hn hf hdisj
    by_cases h0 : n = 0
    · subst h0
      refine ⟨m, by simp [boot_memcpy_loop], ?_, fun a _ => rfl⟩
      intro k hk
      omega
    · have h4n : 4 ≤ n := by omega
      obtain ⟨m', hsome, hcopy, hframe⟩ :=
        ih (storeWord m d (loadWord m s)) (d + 4) (s + 4) (n - 4)
          (storeWord_wf m d _ hm) (by omega) (by omega) (by omega) (by omega)
      refine ⟨m', ?_, ?_, ?_⟩
      · rw [boot_memcpy_loop, if_neg h0, decr4_eq n h4n hn]
        exact hsome
      · intro k hk
        by_cases hlt : k < 4
        · rw [hframe (d + k) (by omega),
            storeWord_in m d (loadWord m s) (d + k) (by omega) (by omega)]
          have he : d + k - d = k := by omega
          rw [he, byteOf_loadWord m hm s k hlt]
        · have he : d + k = d + 4 + (k - 4) := by omega
          rw [he, hcopy (k - 4) (by omega),
            storeWord_out m d (loadWord m s) (s + 4 + (k - 4)) (by omega)]
          have he2 : s + 4 + (k - 4) = s + k := by omega
          rw [he2]
      · intro a ha
        rw [hframe a (by omega), storeWord_out _ _ _ a (by omega)]

lemma boot_memcpy_loop_short (f : Nat) :
    ∀ m d s n, 4 ∣ n → n < SZ → f < n / 4 →
    boot_memcpy_loop f m d s n = none := by
  induction f with
  | zero =>
    intro m d s n h4 hn hf
    have h0 : n ≠ 0 := by omega
    simp [boot_memcpy_loop, h0]
  | succ f ih =>
    intro m d s n h4 hn hf
    have h0 : n ≠ 0 := by omega
    have h4n : 4 ≤ n := by omega
    rw [boot_memcpy_loop, if_neg h0, decr4_eq n h4n hn]
    exact ih _ _ _ _ (by omega) (by omega) (by omega)

lemma boot_memcpy_loop_not_dvd (f : Nat) :
    ∀ m d s n, ¬ 4 ∣ n → boot_memcpy_loop f m d s n = none := by
  induction f with
  | zero =>
    intro m d s n h4
    have h0 : n ≠ 0 := by omega
    simp [boot_memcpy_loop, h0]
  | succ f ih =>
    intro m d s n h4
    have h0 : n ≠ 0 := by omega
    rw [boot_memcpy_loop, if_neg h0]
    refine ih _ _ _ _ ?_
    have := decr4_mod4 n
    omega

/-! ## Indexing the Stage-Two register trace -/

lemma nvic_clear_trace_length (n : Nat) :
    (nvic_clear_trace n).length = 3 * n := by
  induction n with
  | zero => rfl
  | succ n ih =>
    rw [nvic_clear_trace, List.length_append, ih]
    simp
    omega

lemma nvic_clear_trace_get (n i : Nat) (hi : i < n) :
    (nvic_clear_trace n)[3 * i]? = some (.icer i 0xFFFFFFFF) ∧
    (nvic_clear_trace n)[3 * i + 1]? = some .dsb ∧
    (nvic_clear_trace n)[3 * i + 2]? = some (.icpr i 0xFFFFFFFF) := by
  induction n with
  | zero => omega
  | succ n ih =>
    have hl := nvic_clear_trace_length n
    by_cases h : i < n
    · obtain ⟨h1, h2, h3⟩ := ih h
      refine ⟨?_, ?_, ?_⟩ <;>
        rw [nvic_clear_trace, List.getElem?_append_left (by omega)] <;>
        assumption
    · have hi' : i = n := by omega
      subst hi'
      refine ⟨?_, ?_, ?_⟩ <;>
        rw [nvic_clear_trace, List.getElem?_append_right (by omega), hl] <;>
        simp

lemma reset_handler_stage_two_trace_get (nIcer nIp nShp i : Nat)
    (hi : i < nIcer) :
    (reset_handler_stage_two_trace nIcer nIp nShp)[3 * i]?
        = some (.icer i 0xFFFFFFFF) ∧
    (reset_handler_stage_two_trace nIcer nIp nShp)[3 * i + 1]? = some .dsb ∧
    (reset_handler_stage_two_trace nIcer nIp nShp)[3 * i + 2]?
        = some (.icpr i 0xFFFFFFFF) := by
  have hl := nvic_clear_trace_length nIcer
  obtain ⟨h1, h2, h3⟩ := nvic_clear_trace_get nIcer i hi
  unfold reset_handler_stage_two_trace
  refine ⟨?_, ?_, ?_⟩ <;>
    simp only [List.append_assoc] <;>
    rw [List.getElem?_append_left (by omega)] <;> assumption

/-! ## Evaluating `ResetHandler` -/

lemma ResetHandler_ramvt_mem (L : Layout) (st : Machine) :
    (ResetHandler_ramvt L st).1.mem =
      memcpy_bytes st.mem L.ram_vectortable_start L.text_vectortable_start
        (vt_count L) := by
  unfold ResetHandler_ramvt
  by_cases h : st.iwdg_kr = 0 <;> simp [h]

lemma ResetHandler_ramvt_cfgr1 (L : Layout) (st : Machine) :
    (ResetHandler_ramvt L st).1.syscfg_cfgr1 =
      clearBits st.syscfg_cfgr1
          (SYSCFG_CFGR1_MEM_MODE_0 ||| SYSCFG_CFGR1_MEM_MODE_1) |||
        (SYSCFG_CFGR1_MEM_MODE_0 ||| SYSCFG_CFGR1_MEM_MODE_1) := by
  unfold ResetHandler_ramvt
  by_cases h : st.iwdg_kr = 0 <;> simp [h]

lemma ResetHandler_true_mem (L : Layout) (st : Machine) :
    (ResetHandler true L st).1.mem =
      memcpy_bytes st.mem L.ram_vectortable_start L.text_vectortable_start
        (vt_count L) := by
  have h := ResetHandler_ramvt_mem L st
  unfold ResetHandler
  simpa using h

lemma ResetHandler_true_cfgr1 (L : Layout) (st : Machine) :
    (ResetHandler true L st).1.syscfg_cfgr1 =
      clearBits st.syscfg_cfgr1
          (SYSCFG_CFGR1_MEM_MODE_0 ||| SYSCFG_CFGR1_MEM_MODE_1) |||
        (SYSCFG_CFGR1_MEM_MODE_0 ||| SYSCFG_CFGR1_MEM_MODE_1) := by
  have h := ResetHandler_ramvt_cfgr1 L st
  unfold ResetHandler
  simpa using h

lemma iwdg_write_mem_trace (L : Layout) (st : Machine) (v : Nat) :
    S1Event.iwdg_write v ∈ (ResetHandler true L st).2.1 ↔
      (st.iwdg_kr ≠ 0 ∧ v = IWDG_REFRESH_KEY) := by
  unfold ResetHandler ResetHandler_ramvt
  by_cases h : st.iwdg_kr = 0 <;> simp [h]

lemma byteOf_at_zero (w : Nat) : byteOf w 0 = w % 256 := by
  simp [byteOf]

lemma m0_wf : WfMem m0 := fun a => Nat.mod_lt a (by norm_num)

lemma L0_valid : ValidLayout L0 := by
  unfold ValidLayout L0 SZ
  norm_num

/-! ## The claims -/

/-- C1: after Stage-Two's data-copy step (`boot_memcpy` of
`(&_data_end - &_data_start) * 4` bytes from `_data_flash` to `_data_start`),
every byte of the initialized-data RAM region `[_data_start, _data_end)`
equals the byte at the corresponding offset in the flash source region
starting at `_data_flash`, for every initial flash and RAM contents. -/
theorem stage_two_data_copy_correct (L : Layout) (m : Mem)
    (hL : ValidLayout L) (hm : WfMem m) :
    ∃ m', stage_two_copy_data L m = some m' ∧
      ∀ a, L.data_start ≤ a → a < L.data_end →
        m' a = m (L.data_flash + (a - L.data_start)) := by
  obtain ⟨hA1, hA2, hA3, hA4, hA5, hA6, hA7, hA8, hA9, hA10,
    hO1, hO2, hO3, hO4, hS1, hS2, hD1, hD2⟩ := hL
  have hc : data_count L = L.data_end - L.data_start := by
    unfold data_count; omega
  obtain ⟨m', hsome, hcopy, _⟩ :=
    boot_memcpy_loop_spec (data_count L / 4) m L.data_start L.data_flash
      (data_count L) hm (by unfold data_count; omega) (by omega)
      (le_refl _) (by omega)
  refine ⟨m', hsome, ?_⟩
  intro a ha1 ha2
  have hk := hcopy (a - L.data_start) (by omega)
  have he : L.data_start + (a - L.data_start) = a := by omega
  rw [he] at hk
  exact hk

theorem stage_two_data_copy_correct_witness :
    ∃ m', stage_two_copy_data L0 m0 = some m' ∧
      ∀ a, L0.data_start ≤ a → a < L0.data_end →
        m' a = m0 (L0.data_flash + (a - L0.data_start)) :=
  stage_two_data_copy_correct L0 m0 L0_valid m0_wf

/-- C2: after Stage-Two's bss-clear step (`boot_memset` of
`(&_bss_end - &_bss_start) * 4` bytes at `_bss_start` with value 0), every
byte of the bss region `[_bss_start, _bss_end)` equals zero, regardless of
the prior memory contents. -/
theorem stage_two_bss_clear_correct (L : Layout) (m : Mem)
    (hL : ValidLayout L) :
    ∃ m', stage_two_clear_bss L m = some m' ∧
      ∀ a, L.bss_start ≤ a → a < L.bss_end → m' a = 0 := by
  obtain ⟨hA1, hA2, hA3, hA4, hA5, hA6, hA7, hA8, hA9, hA10,
    hO1, hO2, hO3, hO4, hS1, hS2, hD1, hD2⟩ := hL
  have hc : bss_count L = L.bss_end - L.bss_start := by
    unfold bss_count; omega
  obtain ⟨m', hsome, hfill, _⟩ :=
    boot_memset_loop_spec 0 (bss_count L / 4) m L.bss_start (bss_count L)
      (by unfold bss_count; omega) (by omega) (le_refl _)
  refine ⟨m', hsome, ?_⟩
  intro a ha1 ha2
  rw [hfill a ha1 (by omega), byteOf_zero_word]

theorem stage_two_bss_clear_correct_witness :
    ∃ m', stage_two_clear_bss L0 m0 = some m' ∧
      ∀ a, L0.bss_start ≤ a → a < L0.bss_end → m' a = 0 :=
  stage_two_bss_clear_correct L0 m0 L0_valid

/-- C3: for every value of the stack pointer at entry, Stage-One transfers
control to Stage-Two with the active stack pointer equal to the
linker-provided top-of-stack `_stack_end`, and the transfer is a one-way
branch (`bx`), never a call. -/
theorem ResetHandler_stack_and_oneway (ramVT : Bool) (L : Layout)
    (st : Machine) :
    (ResetHandler ramVT L st).2.2.sp = L.stack_end ∧
    (ResetHandler ramVT L st).2.2.kind = XferKind.branch ∧
    (ResetHandler ramVT L st).1.sp = L.stack_end := by
  unfold ResetHandler
  simp

/-- C4: in Stage-Two's register-write trace, for every interrupt-controller
register group `i`, the all-ones write to `ICER[i]` is separated from the
all-ones write to `ICPR[i]` by a data-synchronization barrier. -/
theorem nvic_clear_barrier_ordering (nIcer nIp nShp i : Nat)
    (hi : i < nIcer) :
    ∃ a b c : Nat, a < b ∧ b < c ∧
      (reset_handler_stage_two_trace nIcer nIp nShp)[a]?
          = some (S2Event.icer i 0xFFFFFFFF) ∧
      (reset_handler_stage_two_trace nIcer nIp nShp)[b]? = some S2Event.dsb ∧
      (reset_handler_stage_two_trace nIcer nIp nShp)[c]?
          = some (S2Event.icpr i 0xFFFFFFFF) := by
  obtain ⟨h1, h2, h3⟩ := reset_handler_stage_two_trace_get nIcer nIp nShp i hi
  exact ⟨3 * i, 3 * i + 1, 3 * i + 2, by omega, by omega, h1, h2, h3⟩

theorem nvic_clear_barrier_ordering_witness :
    ∃ a b c : Nat, a < b ∧ b < c ∧
      (reset_handler_stage_two_trace 8 8 3)[a]?
          = some (S2Event.icer 2 0xFFFFFFFF) ∧
      (reset_handler_stage_two_trace 8 8 3)[b]? = some S2Event.dsb ∧
      (reset_handler_stage_two_trace 8 8 3)[c]?
          = some (S2Event.icpr 2 0xFFFFFFFF) :=
  nvic_clear_barrier_ordering 8 8 3 2 (by norm_num)

/-- C5: with `CONFIG_ARMCM_RAM_VECTORTABLE` enabled, after Stage-One every
byte of the RAM vector table (for exactly
`(&_text_vectortable_end - &_text_vectortable_start) * 4` bytes) equals the
corresponding byte of the flash-resident table, and both low-order bits of
`SYSCFG->CFGR1`'s memory-mode field are set. -/
theorem ramvt_relocation_correct (L : Layout) (st : Machine)
    (hL : ValidLayout L) :
    (∀ k, k < vt_count L →
      (ResetHandler true L st).1.mem (L.ram_vectortable_start + k)
        = st.mem (L.text_vectortable_start + k)) ∧
    Nat.testBit ((ResetHandler true L st).1.syscfg_cfgr1) 0 = true ∧
    Nat.testBit ((ResetHandler true L st).1.syscfg_cfgr1) 1 = true := by
  refine ⟨?_, ?_, ?_⟩
  · intro k hk
    rw [ResetHandler_true_mem]
    unfold memcpy_bytes
    rw [if_pos ⟨Nat.le_add_right _ _, by omega⟩]
    congr 1
    omega
  · rw [ResetHandler_true_cfgr1, Nat.testBit_or]
    have h0 : Nat.testBit (SYSCFG_CFGR1_MEM_MODE_0 |||
        SYSCFG_CFGR1_MEM_MODE_1) 0 = true := by decide
    rw [h0, Bool.or_true]
  · rw [ResetHandler_true_cfgr1, Nat.testBit_or]
    have h1 : Nat.testBit (SYSCFG_CFGR1_MEM_MODE_0 |||
        SYSCFG_CFGR1_MEM_MODE_1) 1 = true := by decide
    rw [h1, Bool.or_true]

theorem ramvt_relocation_correct_witness :
    (∀ k, k < vt_count L0 →
      (ResetHandler true L0 mc0).1.mem (L0.ram_vectortable_start + k)
        = mc0.mem (L0.text_vectortable_start + k)) ∧
    Nat.testBit ((ResetHandler true L0 mc0).1.syscfg_cfgr1) 0 = true ∧
    Nat.testBit ((ResetHandler true L0 mc0).1.syscfg_cfgr1) 1 = true :=
  ramvt_relocation_correct L0 mc0 L0_valid

/-- C6: with `CONFIG_ARMCM_RAM_VECTORTABLE` enabled, Stage-One writes the
refresh key `0xAAAA` to the watchdog key register if and only if the
watchdog is active (`IWDG->KR` reads nonzero); when it is inactive, no
write to the key register occurs at all. -/
theorem iwdg_feed_iff_active (L : Layout) (st : Machine) :
    (S1Event.iwdg_write IWDG_REFRESH_KEY ∈ (ResetHandler true L st).2.1 ↔
      st.iwdg_kr ≠ 0) ∧
    (st.iwdg_kr = 0 → ∀ v,
      S1Event.iwdg_write v ∉ (ResetHandler true L st).2.1) := by
  constructor
  · rw [iwdg_write_mem_trace]
    simp
  · intro h0 v hv
    rw [iwdg_write_mem_trace] at hv
    exact hv.1 h0

theorem iwdg_feed_iff_active_witness :
    (S1Event.iwdg_write IWDG_REFRESH_KEY ∈ (ResetHandler true L0 mc1).2.1 ↔
      mc1.iwdg_kr ≠ 0) ∧
    (mc1.iwdg_kr = 0 → ∀ v,
      S1Event.iwdg_write v ∉ (ResetHandler true L0 mc1).2.1) :=
  iwdg_feed_iff_active L0 mc1

/-- C7: for every valid linker layout, `dynmem_start` returns `&_bss_end`,
`dynmem_end` returns `&_stack_start`, neither query mutates any state, and
`dynmem_start() ≤ dynmem_end()`. -/
theorem dynmem_queries_correct (L : Layout) (m : Mem) (hL : ValidLayout L) :
    dynmem_start L = L.bss_end ∧ dynmem_end L = L.stack_start ∧
    dynmem_start L ≤ dynmem_end L ∧
    (dynmem_start_run L m).2 = m ∧ (dynmem_end_run L m).2 = m := by
  obtain ⟨hA1, hA2, hA3, hA4, hA5, hA6, hA7, hA8, hA9, hA10,
    hO1, hO2, hO3, hO4, hS1, hS2, hD1, hD2⟩ := hL
  exact ⟨rfl, rfl, hO3, rfl, rfl⟩

theorem dynmem_queries_correct_witness :
    dynmem_start L0 = L0.bss_end ∧ dynmem_end L0 = L0.stack_start ∧
    dynmem_start L0 ≤ dynmem_end L0 ∧
    (dynmem_start_run L0 m0).2 = m0 ∧ (dynmem_end_run L0 m0).2 = m0 :=
  dynmem_queries_correct L0 m0 L0_valid

/-- C8: for every length `n` that is a multiple of 4, `boot_memcpy` and
`boot_memset` mutate only the `n` destination bytes: every location outside
`[dest, dest+n)` is unchanged, a disjoint source range is unchanged by
`boot_memcpy`, and for `n = 0` no location is touched at all. -/
theorem boot_primitives_frame (m : Mem) (d s c n : Nat)
    (h4 : 4 ∣ n) (hn : n < SZ) :
    (∃ m', boot_memcpy m d s n = some m' ∧
      ∀ a, ¬(d ≤ a ∧ a < d + n) → m' a = m a) ∧
    (∃ m', boot_memset m d c n = some m' ∧
      ∀ a, ¬(d ≤ a ∧ a < d + n) → m' a = m a) ∧
    (∀ m', boot_memcpy m d s n = some m' → (s + n ≤ d ∨ d + n ≤ s) →
      ∀ k, k < n → m' (s + k) = m (s + k)) ∧
    (n = 0 → boot_memcpy m d s n = some m ∧ boot_memset m d c n = some m) := by
  obtain ⟨mc, hmc, hmcframe⟩ :=
    boot_memcpy_loop_frame (n / 4) m d s n h4 hn (le_refl _)
  obtain ⟨ms, hms, _, hmsframe⟩ :=
    boot_memset_loop_spec c (n / 4) m d n h4 hn (le_refl _)
  refine ⟨⟨mc, hmc, hmcframe⟩, ⟨ms, hms, hmsframe⟩, ?_, ?_⟩
  · intro m' heq hdisj k hk
    have hmc' : boot_memcpy m d s n = some mc := hmc
    rw [hmc'] at heq
    cases heq
    exact hmcframe (s + k) (by omega)
  · intro h0
    subst h0
    exact ⟨rfl, rfl⟩

theorem boot_primitives_frame_witness :
    (∃ m', boot_memcpy m0 16 64 8 = some m' ∧
      ∀ a, ¬(16 ≤ a ∧ a < 16 + 8) → m' a = m0 a) ∧
    (∃ m', boot_memset m0 16 9 8 = some m' ∧
      ∀ a, ¬(16 ≤ a ∧ a < 16 + 8) → m' a = m0 a) ∧
    (∀ m', boot_memcpy m0 16 64 8 = some m' → (64 + 8 ≤ 16 ∨ 16 + 8 ≤ 64) →
      ∀ k, k < 8 → m' (64 + k) = m0 (64 + k)) ∧
    (8 = 0 → boot_memcpy m0 16 64 8 = some m0 ∧
      boot_memset m0 16 9 8 = some m0) :=
  boot_primitives_frame m0 16 64 9 8 (by norm_num) (by norm_num [SZ])

/-- C9: `boot_memset` stores the fill value as one whole 32-bit word into
each destination word, so byte `k` of the destination equals byte `k % 4`
of `c`; its result agrees with the standard byte-wise `memset` semantics if
and only if all four bytes of the 32-bit representation of `c` are equal. -/
theorem boot_memset_word_semantics (m : Mem) (s c n : Nat)
    (h4 : 4 ∣ n) (hn : n < SZ) (hpos : 0 < n) :
    ∃ m', boot_memset m s c n = some m' ∧
      (∀ k, k < n → m' (s + k) = byteOf c (k % 4)) ∧
      ((∀ a, m' a = memset_bytes m s c n a) ↔
        (byteOf c 1 = byteOf c 0 ∧ byteOf c 2 = byteOf c 0 ∧
          byteOf c 3 = byteOf c 0)) := by
  obtain ⟨m', hsome, hfill, hframe⟩ :=
    boot_memset_loop_spec c (n / 4) m s n h4 hn (le_refl _)
  have hfill' : ∀ k, k < n → m' (s + k) = byteOf c (k % 4) := by
    intro k hk
    have h := hfill (s + k) (by omega) (by omega)
    have he : s + k - s = k := by omega
    rw [he] at h
    exact h
  have h4n : 4 ≤ n := by omega
  have hz : byteOf c 0 = c % 256 := byteOf_at_zero c
  refine ⟨m', hsome, hfill', ?_, ?_⟩
  · intro h
    have hin : ∀ j, j < 4 → byteOf c (j % 4) = c % 256 := by
      intro j hj
      have h1 := h (s + j)
      have h2 := hfill' j (by omega)
      unfold memset_bytes at h1
      rw [if_pos ⟨by omega, by omega⟩] at h1
      rw [h2] at h1
      exact h1
    have e1 := hin 1 (by norm_num)
    have e2 := hin 2 (by norm_num)
    have e3 := hin 3 (by norm_num)
    norm_num at e1 e2 e3
    rw [e1, e2, e3, hz]
    exact ⟨rfl, rfl, rfl⟩
  · rintro ⟨e1, e2, e3⟩ a
    by_cases hin : s ≤ a ∧ a < s + n
    · rw [hfill a hin.1 hin.2]
      unfold memset_bytes
      rw [if_pos hin]
      have hr : (a - s) % 4 = 0 ∨ (a - s) % 4 = 1 ∨
          (a - s) % 4 = 2 ∨ (a - s) % 4 = 3 := by omega
      rcases hr with hr | hr | hr | hr <;> rw [hr]
      · exact hz
      · rw [e1, hz]
      · rw [e2, hz]
      · rw [e3, hz]
    · rw [hframe a hin]
      unfold memset_bytes
      rw [if_neg hin]

theorem boot_memset_word_semantics_witness :
    ∃ m', boot_memset m0 8 1 4 = some m' ∧
      (∀ k, k < 4 → m' (8 + k) = byteOf 1 (k % 4)) ∧
      ((∀ a, m' a = memset_bytes m0 8 1 4 a) ↔
        (byteOf 1 1 = byteOf 1 0 ∧ byteOf 1 2 = byteOf 1 0 ∧
          byteOf 1 3 = byteOf 1 0)) :=
  boot_memset_word_semantics m0 8 1 4 (by norm_num) (by norm_num [SZ])
    (by norm_num)

/-- C10: the loops of `boot_memset` and `boot_memcpy` terminate if and only
if the length `n` is a multiple of 4: with `4 ∣ n` they complete in exactly
`n / 4` iterations (fuel `n / 4` suffices, any smaller fuel does not); with
`4 ∤ n` the wrap-around decrement never lets the counter reach zero, so no
amount of fuel makes the loop exit. -/
theorem boot_loops_terminate_iff (m : Mem) (d s c n f : Nat) :
    (¬ 4 ∣ n → boot_memset_loop c f m d n = none ∧
      boot_memcpy_loop f m d s n = none) ∧
    (4 ∣ n → n < SZ → n / 4 ≤ f →
      (∃ m1, boot_memset_loop c f m d n = some m1) ∧
      ∃ m2, boot_memcpy_loop f m d s n = some m2) ∧
    (4 ∣ n → n < SZ → f < n / 4 →
      boot_memset_loop c f m d n = none ∧
      boot_memcpy_loop f m d s n = none) := by
  refine ⟨?_, ?_, ?_⟩
  · intro h
    exact ⟨boot_memset_loop_not_dvd c f m d n h,
      boot_memcpy_loop_not_dvd f m d s n h⟩
  · intro h4 hn hf
    obtain ⟨m1, h1, _, _⟩ := boot_memset_loop_spec c f m d n h4 hn hf
    obtain ⟨m2, h2, _⟩ := boot_memcpy_loop_frame f m d s n h4 hn hf
    exact ⟨⟨m1, h1⟩, ⟨m2, h2⟩⟩
  · intro h4 hn hf
    exact ⟨boot_memset_loop_short c f m d n h4 hn hf,
      boot_memcpy_loop_short f m d s n h4 hn hf⟩

theorem boot_loops_terminate_iff_witness :
    (¬ 4 ∣ 6 → boot_memset_loop 0 5 m0 0 6 = none ∧
      boot_memcpy_loop 5 m0 0 64 6 = none) ∧
    (4 ∣ 6 → 6 < SZ → 6 / 4 ≤ 5 →
      (∃ m1, boot_memset_loop 0 5 m0 0 6 = some m1) ∧
      ∃ m2, boot_memcpy_loop 5 m0 0 64 6 = some m2) ∧
    (4 ∣ 6 → 6 < SZ → 5 < 6 / 4 →
      boot_memset_loop 0 5 m0 0 6 = none ∧
      boot_memcpy_loop 5 m0 0 64 6 = none) :=
  boot_loops_terminate_iff m0 0 64 0 6 5

end ArmcmBoot
